import Mathlib

/-!
# mongostore: a session store backed by MongoDB

A shallow embedding of `mongostore.go`.  The store talks to three external
collaborators (the cookie codec, the token transport and the database client).
Each of them is a record of functions over an explicit state; every call made
to a collaborator is appended to a trace, so that "was called", "was not
called" and "was called once" are statements about that trace.
-/

set_option autoImplicit false

/-- A point in time as `time.Time` carries it, counted in ticks. -/
abbrev Time := Nat

/-- Go errors.  `ErrInvalidId` is the package sentinel, `InvalidModified` is the
error built in `upsert` by `errors.New("mongostore: invalid modified value")`,
and `external` stands for every error a collaborator hands back. -/
inductive Error where
  | ErrInvalidId
  | InvalidModified
  | external (msg : String)
  deriving DecidableEq, Repr

namespace primitive

/-- A 12-byte object id, read as one big-endian number. -/
abbrev ObjectID := Fin (2 ^ 96)

/-- One hexadecimal digit as `encoding/hex` accepts it (both cases). -/
def isHexChar (c : Char) : Bool :=
  ('0' ≤ c && c ≤ '9') || ('a' ≤ c && c ≤ 'f') || ('A' ≤ c && c ≤ 'F')

/-- The value of one hexadecimal digit. -/
def hexVal (c : Char) : Nat :=
  if '0' ≤ c && c ≤ '9' then c.toNat - 48
  else if 'a' ≤ c && c ≤ 'f' then c.toNat - 87
  else c.toNat - 55

/-- The lower-case digit `hex.EncodeToString` writes for a value below 16. -/
def hexDigit (n : Nat) : Char :=
  if n < 10 then Char.ofNat (48 + n) else Char.ofNat (87 + n)

/-- Modelled from the spec: the driver function `primitive.ObjectIDFromHex` is
not part of the repository; the spec gives the key format as a
24-hex-character object id.  `none` is the error result. -/
def ObjectIDFromHex (s : String) : Option ObjectID :=
  if s.data.length = 24 ∧ s.data.all isHexChar = true then
    some ⟨(s.data.foldl (fun acc c => 16 * acc + hexVal c) 0) % 2 ^ 96,
      Nat.mod_lt _ (Nat.two_pow_pos 96)⟩
  else none

/-- The method `ObjectID.Hex`: 24 lower-case hexadecimal digits, most
significant first. -/
def Hex (id : ObjectID) : String :=
  String.mk ((List.range 24).map (fun i => hexDigit (id.val / 16 ^ (23 - i) % 16)))

end primitive

/-- A dynamically typed Go value as the session mapping holds it
(`interface{}`): a string, an integer or a `time.Time`. -/
inductive Val where
  | str (s : String)
  | num (n : Int)
  | time (t : Time)
  deriving DecidableEq, Repr

/-- The session mapping `map[interface{}]interface{}` as an association list;
a key is looked up from the front. -/
abbrev Values := List (Val × Val)

namespace sessions

/-- The cookie options of `sessions.Options`. -/
structure Options where
  Path : String
  Domain : String
  MaxAge : Int
  Secure : Bool
  HttpOnly : Bool
  deriving DecidableEq, Repr

/-- The in-memory session of `sessions.Session`; `name` is what `Name()`
returns. -/
structure Session where
  ID : String
  Values : Values
  Options : Options
  IsNew : Bool
  name : String
  deriving DecidableEq, Repr

/-- The constructor `sessions.NewSession(store, name)`: an empty mapping, no
identifier, `IsNew` not yet set, zero options. -/
def NewSession (name : String) : Session :=
  { ID := "", Values := [], Options := ⟨"", "", 0, false, false⟩, IsNew := false,
    name := name }

end sessions

namespace mongostore

open primitive

/-- Session object stored in MongoDB. -/
structure Session where
  Id : String
  Data : String
  Modified : Time
  deriving DecidableEq, Repr

/-- The codec list `[]securecookie.Codec` as used through
`securecookie.EncodeMulti` and `securecookie.DecodeMulti`.  A decode gets the
current content of its destination and returns the content after the call
together with the error, since the destination is passed by pointer. -/
structure Codec where
  EncodeMultiID : String → String → Except Error String
  EncodeMultiValues : String → Values → Except Error String
  DecodeMultiID : String → String → String → String × Option Error
  DecodeMultiValues : String → String → Values → Values × Option Error

/-- The token transport `TokenGetSeter` over the state `τ` of the
request/response boundary. -/
structure TokenGetSeter (τ : Type) where
  GetToken : τ → String → Except Error String
  SetToken : τ → String → String → sessions.Options → τ

/-- The database client `*qmgo.QmgoClient` over the state `σ` of the
collection: `Find(...).One`, `UpsertId` and `RemoveId`. -/
structure QmgoClient (σ : Type) where
  Find : σ → String → Except Error Session
  UpsertId : σ → String → Session → σ × Option Error
  RemoveId : σ → String → σ × Option Error

/-- MongoStore stores sessions in MongoDB. -/
structure MongoStore (σ τ : Type) where
  Codecs : Codec
  Options : sessions.Options
  Token : TokenGetSeter τ
  qc : QmgoClient σ

/-- One call to a collaborator, with the arguments it was given. -/
inductive Call where
  | GetToken (name : String)
  | SetToken (name token : String) (options : sessions.Options)
  | DecodeMulti (name value : String)
  | EncodeMultiID (name id : String)
  | EncodeMultiValues (name : String) (values : Values)
  | Find (id : String)
  | UpsertId (id : String) (s : Session)
  | RemoveId (id : String)
  | Now
  | NewObjectID
  deriving DecidableEq, Repr

/-- Everything outside the store: the collection, the request/response
boundary, what `time.Now()` and `primitive.NewObjectID()` return next, and the
calls made so far, oldest first. -/
structure World (σ τ : Type) where
  db : σ
  rw : τ
  now : Time
  oid : ObjectID
  trace : List Call

variable {σ τ : Type}

/-- Record one call. -/
def World.log (w : World σ τ) (c : Call) : World σ τ :=
  { w with trace := w.trace ++ [c] }

/-- The calls to `SetToken` in a trace. -/
def isSetToken : Call → Bool
  | .SetToken _ _ _ => true
  | _ => false

/-- The calls that reach the backing store in a trace. -/
def isStoreCall : Call → Bool
  | .Find _ => true
  | .UpsertId _ _ => true
  | .RemoveId _ => true
  | _ => false

/-- The calls that encode something. -/
def isEncode : Call → Bool
  | .EncodeMultiID _ _ => true
  | .EncodeMultiValues _ _ => true
  | _ => false

/-- The method `load`: validate the identifier, fetch the record, decode its
payload into the session mapping. -/
def MongoStore.load (m : MongoStore σ τ) (w : World σ τ) (session : sessions.Session) :
    Option Error × sessions.Session × World σ τ :=
  match ObjectIDFromHex session.ID with
  | none => (some Error.ErrInvalidId, session, w)
  | some _ =>
    let w1 := w.log (Call.Find session.ID)
    match m.qc.Find w.db session.ID with
    | .error err => (some err, session, w1)
    | .ok s =>
      let w2 := w1.log (Call.DecodeMulti session.name s.Data)
      match m.Codecs.DecodeMultiValues session.name s.Data session.Values with
      | (values, some err) => (some err, { session with Values := values }, w2)
      | (values, none) => (none, { session with Values := values }, w2)

/-- The method `upsert`: validate the identifier, settle the modification
time, encode the mapping, write the record. -/
def MongoStore.upsert (m : MongoStore σ τ) (w : World σ τ) (session : sessions.Session) :
    Option Error × World σ τ :=
  match ObjectIDFromHex session.ID with
  | none => (some Error.ErrInvalidId, w)
  | some _ =>
    let modified : Except Error (Time × World σ τ) :=
      match session.Values.lookup (Val.str "modified") with
      | some (Val.time t) => .ok (t, w)
      | some _ => .error Error.InvalidModified
      | none => .ok (w.now, w.log Call.Now)
    match modified with
    | .error err => (some err, w)
    | .ok (modified, w1) =>
      let w2 := w1.log (Call.EncodeMultiValues session.name session.Values)
      match m.Codecs.EncodeMultiValues session.name session.Values with
      | .error err => (some err, w2)
      | .ok encoded =>
        let s : Session := { Id := session.ID, Data := encoded, Modified := modified }
        let r := m.qc.UpsertId w2.db s.Id s
        (r.2, { w2.log (Call.UpsertId s.Id s) with db := r.1 })

/-- The method `delete`: validate the identifier, remove the record. -/
def MongoStore.delete (m : MongoStore σ τ) (w : World σ τ) (session : sessions.Session) :
    Option Error × World σ τ :=
  match ObjectIDFromHex session.ID with
  | none => (some Error.ErrInvalidId, w)
  | some _ =>
    let w1 := w.log (Call.RemoveId session.ID)
    let r := m.qc.RemoveId w.db session.ID
    (r.2, { w1 with db := r.1 })

/-- The public `Delete`: remove the record, write no token. -/
def MongoStore.Delete (m : MongoStore σ τ) (w : World σ τ) (session : sessions.Session) :
    Option Error × World σ τ :=
  match m.delete w session with
  | (some err, w1) => (some err, w1)
  | (none, w1) => (none, w1)

/-- The call `m.Token.SetToken(w, name, token, options)`. -/
def MongoStore.setToken (m : MongoStore σ τ) (w : World σ τ) (name token : String)
    (options : sessions.Options) : World σ τ :=
  { w.log (Call.SetToken name token options) with
    rw := m.Token.SetToken w.rw name token options }

/-- New returns a session for the given name without adding it to the
registry. -/
def MongoStore.New (m : MongoStore σ τ) (w : World σ τ) (name : String) :
    sessions.Session × Option Error × World σ τ :=
  let session := sessions.NewSession name
  let session := { session with
    Options := { Path := m.Options.Path, MaxAge := m.Options.MaxAge,
                 Domain := m.Options.Domain, Secure := m.Options.Secure,
                 HttpOnly := m.Options.HttpOnly },
    IsNew := true }
  let w1 := w.log (Call.GetToken name)
  match m.Token.GetToken w.rw name with
  | .error _ => (session, none, w1)
  | .ok cook =>
    let w2 := w1.log (Call.DecodeMulti name cook)
    match m.Codecs.DecodeMultiID name cook session.ID with
    | (id, some err) => ({ session with ID := id }, some err, w2)
    | (id, none) =>
      match m.load w2 { session with ID := id } with
      | (none, session, w3) => ({ session with IsNew := false }, none, w3)
      | (some _, session, w3) => (session, none, w3)

/-- Save saves the session: a negative max-age deletes it, otherwise it is
given an identifier if it has none, written, and its token is set. -/
def MongoStore.Save (m : MongoStore σ τ) (w : World σ τ) (session : sessions.Session) :
    Option Error × sessions.Session × World σ τ :=
  if session.Options.MaxAge < 0 then
    match m.delete w session with
    | (some err, w1) => (some err, session, w1)
    | (none, w1) => (none, session, m.setToken w1 session.name "" session.Options)
  else
    let fresh : sessions.Session × World σ τ :=
      if session.ID = "" then
        ({ session with ID := Hex w.oid }, w.log Call.NewObjectID)
      else (session, w)
    let session := fresh.1
    match m.upsert fresh.2 session with
    | (some err, w2) => (some err, session, w2)
    | (none, w2) =>
      let w3 := w2.log (Call.EncodeMultiID session.name session.ID)
      match m.Codecs.EncodeMultiID session.name session.ID with
      | .error err => (some err, session, w3)
      | .ok encoded =>
        (none, session, m.setToken w3 session.name encoded session.Options)

end mongostore

/-! ## Test doubles of the collaborators -/

namespace mongostore

/-- The error `qmgo.ErrNoSuchDocuments`, which the client reports when a query
or a removal matches no document. -/
def ErrNoSuchDocuments : Error := Error.external "mongo: no documents in result"

/-- The error of a call that ran into its five-second deadline. -/
def ErrDeadlineExceeded : Error := Error.external "context deadline exceeded"

/-- The error `http.ErrNoCookie`. -/
def ErrNoCookie : Error := Error.external "http: named cookie not present"

/-- The error a codec reports for a value it cannot decode. -/
def ErrDecode : Error := Error.external "securecookie: the value is not valid"

/-- The error a codec reports for a value it cannot encode. -/
def ErrEncode : Error := Error.external "securecookie: the value is too long"

/-- An in-memory collection, records in insertion order, behaving as the qmgo
client does: a query or removal that matches nothing reports
`ErrNoSuchDocuments`, an upsert replaces the record of that key or adds one. -/
def memClient : QmgoClient (List Session) where
  Find db id :=
    match db.find? (fun r => decide (r.Id = id)) with
    | some s => .ok s
    | none => .error ErrNoSuchDocuments
  UpsertId db id s :=
    if db.any (fun r => decide (r.Id = id)) then
      (db.map (fun r => if r.Id = id then s else r), none)
    else (db ++ [s], none)
  RemoveId db id :=
    if db.any (fun r => decide (r.Id = id)) then
      (db.filter (fun r => !decide (r.Id = id)), none)
    else (db, some ErrNoSuchDocuments)

/-- A collection that cannot be reached: every call runs into its deadline. -/
def downClient : QmgoClient Unit where
  Find _ _ := .error ErrDeadlineExceeded
  UpsertId db _ _ := (db, some ErrDeadlineExceeded)
  RemoveId db _ := (db, some ErrDeadlineExceeded)

/-- Modelled from the spec: the cookie transport `CookieToken` is declared
outside `mongostore.go`; the spec describes it as cookie get/set at the
request/response boundary.  The state is the cookie jar, newest cookie first. -/
def CookieToken : TokenGetSeter (List (String × String)) where
  GetToken jar name :=
    match jar.lookup name with
    | some token => .ok token
    | none => .error ErrNoCookie
  SetToken jar name token _ := (name, token) :: jar

/-- Write a number in unary. -/
def putNat (n : Nat) : List Char := List.replicate n '1' ++ ['0']

/-- Read a number written by `putNat`, returning the rest of the input. -/
def getNat : List Char → Option (Nat × List Char)
  | [] => none
  | c :: cs =>
    if c = '0' then some (0, cs)
    else if c = '1' then (getNat cs).map (fun p => (p.1 + 1, p.2))
    else none

/-- Write one value: a tag, then its length or magnitude, then its text. -/
def putVal : Val → List Char
  | .str s => 's' :: (putNat s.data.length ++ s.data)
  | .num (Int.ofNat n) => 'p' :: putNat n
  | .num (Int.negSucc n) => 'm' :: putNat n
  | .time t => 't' :: putNat t

/-- Read one value written by `putVal`, returning the rest of the input. -/
def getVal : List Char → Option (Val × List Char)
  | [] => none
  | c :: cs =>
    match getNat cs with
    | none => none
    | some (n, r) =>
      if c = 's' then
        if n ≤ r.length then some (.str ⟨r.take n⟩, r.drop n) else none
      else if c = 'p' then some (.num (Int.ofNat n), r)
      else if c = 'm' then some (.num (Int.negSucc n), r)
      else if c = 't' then some (.time n, r)
      else none

/-- Write the entries of a mapping one after the other. -/
def putEntries : Values → List Char
  | [] => []
  | (k, v) :: rest => putVal k ++ (putVal v ++ putEntries rest)

/-- Read `n` entries written by `putEntries`. -/
def getEntries : Nat → List Char → Option (Values × List Char)
  | 0, cs => some ([], cs)
  | n + 1, cs =>
    match getVal cs with
    | none => none
    | some (k, r1) =>
      match getVal r1 with
      | none => none
      | some (v, r2) =>
        match getEntries n r2 with
        | none => none
        | some (rest, r3) => some ((k, v) :: rest, r3)

/-- A codec without secrecy: the encoded text is the session name, then the
identifier itself or the entries of the mapping.  Text written for another
name, or cut short, does not decode, and leaves the destination as it was. -/
def plainCodec : Codec where
  EncodeMultiID name id := .ok ⟨putVal (.str name) ++ id.data⟩
  EncodeMultiValues name values :=
    .ok ⟨putVal (.str name) ++ (putNat values.length ++ putEntries values)⟩
  DecodeMultiID name value dst :=
    match getVal value.data with
    | some (Val.str n, r) => if n = name then (⟨r⟩, none) else (dst, some ErrDecode)
    | _ => (dst, some ErrDecode)
  DecodeMultiValues name value dst :=
    match getVal value.data with
    | some (Val.str n, r) =>
      if n = name then
        match getNat r with
        | some (k, r1) =>
          match getEntries k r1 with
          | some (values, []) => (values, none)
          | _ => (dst, some ErrDecode)
        | none => (dst, some ErrDecode)
      else (dst, some ErrDecode)
    | _ => (dst, some ErrDecode)

/-- A codec whose every call fails. -/
def brokenCodec : Codec where
  EncodeMultiID _ _ := .error ErrEncode
  EncodeMultiValues _ _ := .error ErrEncode
  DecodeMultiID _ _ dst := (dst, some ErrDecode)
  DecodeMultiValues _ _ dst := (dst, some ErrDecode)

/-- The options `NewMongoStore` builds: path `/`, the given max-age. -/
def storeOptions (maxAge : Int) : sessions.Options :=
  { Path := "/", Domain := "", MaxAge := maxAge, Secure := false, HttpOnly := false }

/-- The store of the end-to-end scenario: in-memory collection, cookie
transport, max-age 3600. -/
def memStore : MongoStore (List Session) (List (String × String)) :=
  { Codecs := plainCodec, Options := storeOptions 3600, Token := CookieToken,
    qc := memClient }

/-- A world with an empty collection, no cookie, and an empty trace. -/
def emptyWorld : World (List Session) (List (String × String)) :=
  { db := [], rw := [], now := 1000, oid := ⟨0x5f1e2d3c4b5a69788796a5b4, by decide⟩,
    trace := [] }

end mongostore

/-! ## Auxiliary definitions used in the statements -/

namespace mongostore

open primitive

variable {σ τ : Type}

/-- A session named `sid` with the given identifier and mapping and the
options of `storeOptions`. -/
def sessionOf (id : String) (values : Values) (maxAge : Int) : sessions.Session :=
  { ID := id, Values := values, Options := storeOptions maxAge, IsNew := true,
    name := "sid" }

/-- A world whose cookie jar holds the given token under the name `sid`. -/
def worldWithCookie (token : String) (db : List Session) :
    World (List Session) (List (String × String)) :=
  { emptyWorld with rw := [("sid", token)], db := db }

/-- A store over the unreachable collection. -/
def downStore : MongoStore Unit (List (String × String)) :=
  { Codecs := plainCodec, Options := storeOptions 3600, Token := CookieToken,
    qc := downClient }

/-- A world over the unreachable collection whose cookie jar holds a token for
the identifier `5f1e2d3c4b5a69788796a5b4` under the name `sid`. -/
def downWorld : World Unit (List (String × String)) :=
  { db := (), rw := [("sid", "s1110sid5f1e2d3c4b5a69788796a5b4")], now := 1000,
    oid := ⟨0, by decide⟩, trace := [] }

/-- A codec that encodes and decodes mappings but cannot encode an
identifier into a token. -/
def tokenlessCodec : Codec :=
  { plainCodec with EncodeMultiID := fun _ _ => .error ErrEncode }

/-- The in-memory store over `tokenlessCodec`. -/
def tokenlessStore : MongoStore (List Session) (List (String × String)) :=
  { memStore with Codecs := tokenlessCodec }

/-- The in-memory store over the codec whose every call fails. -/
def brokenStore : MongoStore (List Session) (List (String × String)) :=
  { memStore with Codecs := brokenCodec }

/-- The session `New` starts from: no identifier, empty mapping, the store's
options, `IsNew` set. -/
def freshSession (m : MongoStore σ τ) (name : String) : sessions.Session :=
  { ID := "", Values := [],
    Options := { Path := m.Options.Path, Domain := m.Options.Domain,
                 MaxAge := m.Options.MaxAge, Secure := m.Options.Secure,
                 HttpOnly := m.Options.HttpOnly },
    IsNew := true, name := name }

/-- The session `Save` writes: the given one, with a new identifier when it
had none (lines 128-130 of the source). -/
def withID (w : World σ τ) (session : sessions.Session) : sessions.Session :=
  if session.ID = "" then { session with ID := Hex w.oid } else session

/-- The world after `Save` has settled the identifier. -/
def afterID (w : World σ τ) (session : sessions.Session) : World σ τ :=
  if session.ID = "" then w.log Call.NewObjectID else w

end mongostore

/-! ## The identifier format -/

namespace primitive

theorem ObjectIDFromHex_eq_none_iff (s : String) :
    ObjectIDFromHex s = none ↔
      ¬ (s.data.length = 24 ∧ ∀ c ∈ s.data, isHexChar c = true) := by
  unfold ObjectIDFromHex
  by_cases h : s.data.length = 24 ∧ s.data.all isHexChar = true
  · have h2 := h
    rw [List.all_eq_true] at h2
    rw [if_pos h]
    simp only [reduceCtorEq, false_iff, not_not]
    exact h2
  · have h2 := h
    rw [List.all_eq_true] at h2
    rw [if_neg h]
    simp only [true_iff]
    exact h2

theorem ObjectIDFromHex_isSome_iff (s : String) :
    (ObjectIDFromHex s).isSome = true ↔
      (s.data.length = 24 ∧ ∀ c ∈ s.data, isHexChar c = true) := by
  rw [← not_iff_not, ← ObjectIDFromHex_eq_none_iff]
  cases ObjectIDFromHex s <;> simp

theorem isHexChar_hexDigit (n : Nat) (h : n < 16) : isHexChar (hexDigit n) = true := by
  interval_cases n <;> decide

theorem ObjectIDFromHex_Hex (id : ObjectID) : (ObjectIDFromHex (Hex id)).isSome = true := by
  rw [ObjectIDFromHex_isSome_iff]
  constructor
  · simp [Hex]
  · intro c hc
    simp only [Hex, List.mem_map] at hc
    obtain ⟨i, _, rfl⟩ := hc
    exact isHexChar_hexDigit _ (Nat.mod_lt _ (by decide))

theorem Hex_ne_empty (id : ObjectID) : Hex id ≠ "" := by
  intro h
  have h1 := congrArg (fun s => s.data.length) h
  simp [Hex] at h1

end primitive

/-! ## The repository methods: load, upsert, delete -/

namespace mongostore

open primitive

variable {σ τ : Type}

/-- C9: a session whose ID is not 24 hexadecimal characters makes `load`,
`upsert` and `delete` return exactly `ErrInvalidId` with the session and the
world (collection, transport, trace of calls) untouched: no `Find`, `UpsertId`
or `RemoveId` is made, and `upsert` neither reads the clock nor encodes the
payload, whatever the mapping holds under "modified". -/
theorem invalid_id_rejected_before_store (m : MongoStore σ τ) (w : World σ τ)
    (session : sessions.Session)
    (h : ¬ (session.ID.data.length = 24 ∧ ∀ c ∈ session.ID.data, isHexChar c = true)) :
    m.load w session = (some Error.ErrInvalidId, session, w) ∧
    m.upsert w session = (some Error.ErrInvalidId, w) ∧
    m.delete w session = (some Error.ErrInvalidId, w) ∧
    (m.load w session).2.2.trace = w.trace ∧
    (m.upsert w session).2.trace = w.trace ∧
    (m.delete w session).2.trace = w.trace := by
  have hn : ObjectIDFromHex session.ID = none := (ObjectIDFromHex_eq_none_iff _).mpr h
  simp [MongoStore.load, MongoStore.upsert, MongoStore.delete, hn]

/-- C9 at a concrete input: the identifier `abc` with a wrongly typed
"modified" value is rejected as invalid by all three methods. -/
theorem invalid_id_rejected_before_store_witness :
    memStore.load emptyWorld (sessionOf "abc" [(Val.str "modified", Val.str "now")] 3600)
      = (some Error.ErrInvalidId,
          sessionOf "abc" [(Val.str "modified", Val.str "now")] 3600, emptyWorld) ∧
    memStore.upsert emptyWorld (sessionOf "abc" [(Val.str "modified", Val.str "now")] 3600)
      = (some Error.ErrInvalidId, emptyWorld) ∧
    memStore.delete emptyWorld (sessionOf "abc" [(Val.str "modified", Val.str "now")] 3600)
      = (some Error.ErrInvalidId, emptyWorld) :=
  have h := invalid_id_rejected_before_store memStore emptyWorld
    (sessionOf "abc" [(Val.str "modified", Val.str "now")] 3600)
    (by simp [sessionOf])
  ⟨h.1, h.2.1, h.2.2.1⟩

/-- C10: for a well-formed identifier, `upsert` takes the modification time
from the mapping when "modified" holds a timestamp, fails without touching
anything when "modified" holds another type, and reads the clock when the key
is absent.  When the payload encodes, the one record handed to `UpsertId` has
the session's ID, the encoded mapping as Data, and that time as Modified, and
`upsert` returns what `UpsertId` returns. -/
theorem upsert_modified_policy (m : MongoStore σ τ) (w : World σ τ)
    (session : sessions.Session)
    (hid : session.ID.data.length = 24 ∧ ∀ c ∈ session.ID.data, isHexChar c = true) :
    (∀ t encoded, session.Values.lookup (Val.str "modified") = some (Val.time t) →
      m.Codecs.EncodeMultiValues session.name session.Values = .ok encoded →
      m.upsert w session =
        ((m.qc.UpsertId w.db session.ID ⟨session.ID, encoded, t⟩).2,
         { w with
           db := (m.qc.UpsertId w.db session.ID ⟨session.ID, encoded, t⟩).1,
           trace := w.trace ++
             [Call.EncodeMultiValues session.name session.Values,
              Call.UpsertId session.ID ⟨session.ID, encoded, t⟩] })) ∧
    (∀ v, session.Values.lookup (Val.str "modified") = some v →
      (∀ t, v ≠ Val.time t) →
      m.upsert w session = (some Error.InvalidModified, w)) ∧
    (∀ encoded, session.Values.lookup (Val.str "modified") = none →
      m.Codecs.EncodeMultiValues session.name session.Values = .ok encoded →
      m.upsert w session =
        ((m.qc.UpsertId w.db session.ID ⟨session.ID, encoded, w.now⟩).2,
         { w with
           db := (m.qc.UpsertId w.db session.ID ⟨session.ID, encoded, w.now⟩).1,
           trace := w.trace ++
             [Call.Now, Call.EncodeMultiValues session.name session.Values,
              Call.UpsertId session.ID ⟨session.ID, encoded, w.now⟩] })) := by
  obtain ⟨o, ho⟩ := Option.isSome_iff_exists.mp ((ObjectIDFromHex_isSome_iff _).mpr hid)
  refine ⟨?_, ?_, ?_⟩
  · intro t encoded hl he
    simp [MongoStore.upsert, ho, hl, he, World.log]
  · intro v hl hv
    cases v with
    | time t => exact absurd rfl (hv t)
    | str s => simp [MongoStore.upsert, ho, hl]
    | num n => simp [MongoStore.upsert, ho, hl]
  · intro encoded hl he
    simp [MongoStore.upsert, ho, hl, he, World.log]

/-- C10 at a concrete input: a mapping that carries the timestamp 42 under
"modified" is written with Modified = 42, not with the clock's 1000. -/
theorem upsert_modified_policy_witness :
    ((memStore.upsert emptyWorld
      (sessionOf "5f1e2d3c4b5a69788796a5b4" [(Val.str "modified", Val.time 42)] 3600)).2.db.map
        (fun r => (r.Id, r.Modified))) = [("5f1e2d3c4b5a69788796a5b4", 42)] := by
  have h := (upsert_modified_policy memStore emptyWorld
    (sessionOf "5f1e2d3c4b5a69788796a5b4" [(Val.str "modified", Val.time 42)] 3600)
    (by decide)).1 42 _ (by decide) rfl
  rw [h]
  decide

end mongostore

/-! ## Lookup: New -/

namespace mongostore

open primitive

variable {σ τ : Type}

theorem New_no_token (m : MongoStore σ τ) (w : World σ τ) (name : String) (e : Error)
    (hTok : m.Token.GetToken w.rw name = .error e) :
    m.New w name = (freshSession m name, none, w.log (Call.GetToken name)) := by
  simp [MongoStore.New, hTok, freshSession, sessions.NewSession]

theorem New_id_decode_failed (m : MongoStore σ τ) (w : World σ τ) (name cook d : String)
    (e : Error) (hTok : m.Token.GetToken w.rw name = .ok cook)
    (hDec : m.Codecs.DecodeMultiID name cook "" = (d, some e)) :
    m.New w name = ({ freshSession m name with ID := d }, some e,
      (w.log (Call.GetToken name)).log (Call.DecodeMulti name cook)) := by
  simp [MongoStore.New, hTok, hDec, freshSession, sessions.NewSession]

theorem New_id_decoded (m : MongoStore σ τ) (w : World σ τ) (name cook id : String)
    (hTok : m.Token.GetToken w.rw name = .ok cook)
    (hDec : m.Codecs.DecodeMultiID name cook "" = (id, none)) :
    m.New w name =
      match m.load ((w.log (Call.GetToken name)).log (Call.DecodeMulti name cook))
          { freshSession m name with ID := id } with
      | (none, session, w3) => ({ session with IsNew := false }, none, w3)
      | (some _, session, w3) => (session, none, w3) := by
  simp [MongoStore.New, hTok, hDec, freshSession, sessions.NewSession]

/-- C2: when the transport returns a token and decoding it into an identifier
fails with error `e`, `New` returns `e`, the session has `IsNew = true`, and
the only calls made are `GetToken` and that `DecodeMulti`: no `Find` reaches
the collection, which is left as it was. -/
theorem New_identifier_decode_failure_is_hard_error (m : MongoStore σ τ) (w : World σ τ)
    (name cook d : String) (e : Error)
    (hTok : m.Token.GetToken w.rw name = .ok cook)
    (hDec : m.Codecs.DecodeMultiID name cook "" = (d, some e)) :
    (m.New w name).2.1 = some e ∧
    (m.New w name).1.IsNew = true ∧
    (m.New w name).2.2.trace = w.trace ++ [Call.GetToken name, Call.DecodeMulti name cook] ∧
    ((m.New w name).2.2.trace.filter isStoreCall) = w.trace.filter isStoreCall ∧
    (m.New w name).2.2.db = w.db := by
  rw [New_id_decode_failed m w name cook d e hTok hDec]
  simp [World.log, freshSession, isStoreCall]

/-- C2 at a concrete input: a cookie whose text was written for another
session name does not decode, and `New` returns the codec's error. -/
theorem New_identifier_decode_failure_is_hard_error_witness :
    (memStore.New (worldWithCookie "s11110user5f1e2d3c4b5a69788796a5b4" []) "sid").2.1
      = some ErrDecode ∧
    (memStore.New (worldWithCookie "s11110user5f1e2d3c4b5a69788796a5b4" []) "sid").1.IsNew
      = true :=
  have h := New_identifier_decode_failure_is_hard_error memStore
    (worldWithCookie "s11110user5f1e2d3c4b5a69788796a5b4" []) "sid"
    "s11110user5f1e2d3c4b5a69788796a5b4" "" ErrDecode rfl rfl
  ⟨h.1, h.2.1⟩

end mongostore

namespace mongostore

open primitive

variable {σ τ : Type}

theorem load_find_error (m : MongoStore σ τ) (w : World σ τ) (session : sessions.Session)
    (e : Error) (hid : (ObjectIDFromHex session.ID).isSome = true)
    (hFind : m.qc.Find w.db session.ID = .error e) :
    m.load w session = (some e, session, w.log (Call.Find session.ID)) := by
  obtain ⟨o, ho⟩ := Option.isSome_iff_exists.mp hid
  simp [MongoStore.load, ho, hFind]

theorem load_payload (m : MongoStore σ τ) (w : World σ τ) (session : sessions.Session)
    (s : Session) (values : Values) (r : Option Error)
    (hid : (ObjectIDFromHex session.ID).isSome = true)
    (hFind : m.qc.Find w.db session.ID = .ok s)
    (hDec : m.Codecs.DecodeMultiValues session.name s.Data session.Values = (values, r)) :
    m.load w session = (r, { session with Values := values },
      (w.log (Call.Find session.ID)).log (Call.DecodeMulti session.name s.Data)) := by
  obtain ⟨o, ho⟩ := Option.isSome_iff_exists.mp hid
  cases r <;> simp [MongoStore.load, ho, hFind, hDec]

/-- When `load` succeeds, every step of it succeeded. -/
theorem load_ok_inv (m : MongoStore σ τ) (w : World σ τ) (session : sessions.Session)
    (h : (m.load w session).1 = none) :
    (ObjectIDFromHex session.ID).isSome = true ∧
    ∃ s values, m.qc.Find w.db session.ID = .ok s ∧
      m.Codecs.DecodeMultiValues session.name s.Data session.Values = (values, none) := by
  unfold MongoStore.load at h
  split at h
  · simp at h
  · rename_i o ho
    refine ⟨by simp [ho], ?_⟩
    split at h
    · simp at h
    · rename_i s hs
      split at h
      · simp at h
      · rename_i values hv
        exact ⟨s, values, hs, hv⟩

/-- C3: when the token decodes to an identifier and the collection reports an
error for it (no such record among them), or the stored payload does not
decode, `New` returns a nil error and a session with `IsNew = true`; and
`IsNew = false` comes back only when the transport returned a token, the token
decoded to a well-formed identifier, the collection returned a record, and the
record's payload decoded. -/
theorem New_degrades_on_not_found_or_payload_failure (m : MongoStore σ τ)
    (w : World σ τ) (name : String) :
    (∀ cook id, m.Token.GetToken w.rw name = .ok cook →
      m.Codecs.DecodeMultiID name cook "" = (id, none) →
      ((∃ e, m.qc.Find w.db id = .error e) ∨
       (∃ s d e, m.qc.Find w.db id = .ok s ∧
          m.Codecs.DecodeMultiValues name s.Data [] = (d, some e))) →
      (m.New w name).2.1 = none ∧ (m.New w name).1.IsNew = true) ∧
    ((m.New w name).1.IsNew = false →
      ∃ cook id s values, m.Token.GetToken w.rw name = .ok cook ∧
        m.Codecs.DecodeMultiID name cook "" = (id, none) ∧
        (ObjectIDFromHex id).isSome = true ∧
        m.qc.Find w.db id = .ok s ∧
        m.Codecs.DecodeMultiValues name s.Data [] = (values, none)) := by
  constructor
  · intro cook id hTok hDec hLoad
    rw [New_id_decoded m w name cook id hTok hDec]
    cases hv : ObjectIDFromHex id with
    | none =>
      simp [MongoStore.load, freshSession, hv]
    | some o =>
      have hid : (ObjectIDFromHex ({ freshSession m name with ID := id }).ID).isSome = true := by
        simp [hv]
      rcases hLoad with ⟨e, he⟩ | ⟨s, d, e, hs, hd⟩
      · rw [load_find_error m _ _ e hid (by simpa [World.log] using he)]
        simp [freshSession]
      · rw [load_payload m _ _ s d (some e) hid (by simpa [World.log] using hs)
          (by simpa [freshSession] using hd)]
        simp [freshSession]
  · intro hNew
    cases hTok : m.Token.GetToken w.rw name with
    | error e =>
      rw [New_no_token m w name e hTok] at hNew
      simp [freshSession] at hNew
    | ok cook =>
      cases hDec : m.Codecs.DecodeMultiID name cook "" with
      | mk id r =>
        cases r with
        | some e =>
          rw [New_id_decode_failed m w name cook id e hTok hDec] at hNew
          simp [freshSession] at hNew
        | none =>
          rw [New_id_decoded m w name cook id hTok hDec] at hNew
          cases hl : m.load ((w.log (Call.GetToken name)).log (Call.DecodeMulti name cook))
              { freshSession m name with ID := id } with
          | mk r rest =>
            cases r with
            | some e =>
              have hTrue : rest.1.IsNew = true := by
                have := congrArg (fun x => x.2.1.IsNew) hl
                simp only at this
                rw [← this]
                unfold MongoStore.load
                split
                · rfl
                · split
                  · rfl
                  · split <;> rfl
              rw [hl] at hNew
              simp [hTrue] at hNew
            | none =>
              have h1 := load_ok_inv m _ _ (by rw [hl])
              obtain ⟨hid, s, values, hs, hd⟩ := h1
              exact ⟨cook, id, s, values, rfl, hDec, hid,
                by simpa [World.log] using hs, by simpa [freshSession] using hd⟩

/-- C3 at a concrete input: a cookie for a well-formed identifier that the
collection does not hold gives a new session and no error. -/
theorem New_degrades_on_not_found_or_payload_failure_witness :
    (memStore.New (worldWithCookie "s1110sid5f1e2d3c4b5a69788796a5b4" []) "sid").2.1 = none ∧
    (memStore.New (worldWithCookie "s1110sid5f1e2d3c4b5a69788796a5b4" []) "sid").1.IsNew
      = true :=
  (New_degrades_on_not_found_or_payload_failure memStore
    (worldWithCookie "s1110sid5f1e2d3c4b5a69788796a5b4" []) "sid").1
    "s1110sid5f1e2d3c4b5a69788796a5b4" "5f1e2d3c4b5a69788796a5b4" rfl rfl
    (Or.inl ⟨ErrNoSuchDocuments, rfl⟩)

end mongostore

namespace mongostore

open primitive

variable {σ τ : Type}

/-- C4 fails on the code: the token decodes to a well-formed identifier, the
collection answers `Find` with a deadline error, and `New` returns a nil error
instead of that error. -/
theorem New_timeout_not_propagated :
    downStore.Token.GetToken downWorld.rw "sid" = .ok "s1110sid5f1e2d3c4b5a69788796a5b4" ∧
    downStore.Codecs.DecodeMultiID "sid" "s1110sid5f1e2d3c4b5a69788796a5b4" ""
      = ("5f1e2d3c4b5a69788796a5b4", none) ∧
    (ObjectIDFromHex "5f1e2d3c4b5a69788796a5b4").isSome = true ∧
    downStore.qc.Find downWorld.db "5f1e2d3c4b5a69788796a5b4" = .error ErrDeadlineExceeded ∧
    (downStore.New downWorld "sid").2.1 = none ∧
    (downStore.New downWorld "sid").2.1 ≠ some ErrDeadlineExceeded :=
  ⟨rfl, rfl, by decide, rfl, by decide, by decide⟩

/-- C4 as amended: when the token decodes to a well-formed identifier and the
collection answers `Find` with any error `e` (a timeout or an unreachable
store as much as a missing record), `New` makes that one `Find`, drops `e`,
and returns a nil error with a session whose `IsNew` is true. -/
theorem New_swallows_every_load_error (m : MongoStore σ τ) (w : World σ τ)
    (name cook id : String) (e : Error)
    (hTok : m.Token.GetToken w.rw name = .ok cook)
    (hDec : m.Codecs.DecodeMultiID name cook "" = (id, none))
    (hid : id.data.length = 24 ∧ ∀ c ∈ id.data, isHexChar c = true)
    (hFind : m.qc.Find w.db id = .error e) :
    (m.New w name).2.1 = none ∧
    (m.New w name).1.IsNew = true ∧
    (m.New w name).2.2.trace =
      w.trace ++ [Call.GetToken name, Call.DecodeMulti name cook, Call.Find id] := by
  rw [New_id_decoded m w name cook id hTok hDec]
  rw [load_find_error m _ _ e ((ObjectIDFromHex_isSome_iff _).mpr hid)
    (by simpa [World.log] using hFind)]
  simp [freshSession, World.log]

/-- C4 as amended, at a concrete input: the deadline error of the unreachable
collection does not come back from `New`. -/
theorem New_swallows_every_load_error_witness :
    (downStore.New downWorld "sid").2.1 = none ∧
    (downStore.New downWorld "sid").1.IsNew = true ∧
    (downStore.New downWorld "sid").2.2.trace =
      [Call.GetToken "sid", Call.DecodeMulti "sid" "s1110sid5f1e2d3c4b5a69788796a5b4",
       Call.Find "5f1e2d3c4b5a69788796a5b4"] :=
  New_swallows_every_load_error downStore downWorld "sid"
    "s1110sid5f1e2d3c4b5a69788796a5b4" "5f1e2d3c4b5a69788796a5b4" ErrDeadlineExceeded
    rfl rfl (by decide) rfl

/-- C5 fails on the code: the token decodes to a well-formed identifier that
the collection does not hold; the session `New` returns keeps that identifier
instead of the empty one, so it is not the session returned without a token. -/
theorem New_degraded_session_keeps_ID :
    memStore.Token.GetToken (worldWithCookie "s1110sid5f1e2d3c4b5a69788796a5b4" []).rw "sid"
      = .ok "s1110sid5f1e2d3c4b5a69788796a5b4" ∧
    memStore.Codecs.DecodeMultiID "sid" "s1110sid5f1e2d3c4b5a69788796a5b4" ""
      = ("5f1e2d3c4b5a69788796a5b4", none) ∧
    memStore.qc.Find (worldWithCookie "s1110sid5f1e2d3c4b5a69788796a5b4" []).db
      "5f1e2d3c4b5a69788796a5b4" = .error ErrNoSuchDocuments ∧
    (memStore.New (worldWithCookie "s1110sid5f1e2d3c4b5a69788796a5b4" []) "sid").1.ID
      = "5f1e2d3c4b5a69788796a5b4" ∧
    (memStore.New (worldWithCookie "s1110sid5f1e2d3c4b5a69788796a5b4" []) "sid").1.ID ≠ "" ∧
    (memStore.New (worldWithCookie "s1110sid5f1e2d3c4b5a69788796a5b4" []) "sid").1
      ≠ (memStore.New emptyWorld "sid").1 :=
  ⟨rfl, rfl, rfl, by decide, by decide, by decide⟩

/-- C5 as amended: when the token decodes to a well-formed identifier `id` and
the load ends in an error of `Find` (not-found among them) or in a payload
decode failure, `New` returns a nil error and the session it returns without a
token, except that its ID is `id`; after a payload decode failure the mapping
is what the failed decode left in the empty destination. -/
theorem New_degraded_session (m : MongoStore σ τ) (w : World σ τ)
    (name cook id : String)
    (hTok : m.Token.GetToken w.rw name = .ok cook)
    (hDec : m.Codecs.DecodeMultiID name cook "" = (id, none))
    (hid : id.data.length = 24 ∧ ∀ c ∈ id.data, isHexChar c = true) :
    (∀ e, m.qc.Find w.db id = .error e →
      (m.New w name).1 = { freshSession m name with ID := id } ∧
      (m.New w name).2.1 = none) ∧
    (∀ s d e, m.qc.Find w.db id = .ok s →
      m.Codecs.DecodeMultiValues name s.Data [] = (d, some e) →
      (m.New w name).1 = { freshSession m name with ID := id, Values := d } ∧
      (m.New w name).2.1 = none) ∧
    (∀ w0 e, m.Token.GetToken w0.rw name = .error e →
      (m.New w0 name).1 = freshSession m name) := by
  have hv : (ObjectIDFromHex ({ freshSession m name with ID := id }).ID).isSome = true :=
    (ObjectIDFromHex_isSome_iff _).mpr hid
  refine ⟨?_, ?_, ?_⟩
  · intro e hFind
    rw [New_id_decoded m w name cook id hTok hDec]
    rw [load_find_error m _ _ e hv (by simpa [World.log] using hFind)]
    simp
  · intro s d e hFind hPay
    rw [New_id_decoded m w name cook id hTok hDec]
    rw [load_payload m _ _ s d (some e) hv (by simpa [World.log] using hFind)
      (by simpa [freshSession] using hPay)]
    simp
  · intro w0 e hNo
    rw [New_no_token m w0 name e hNo]

/-- C5 as amended, at a concrete input: the record of the identifier holds a
payload that does not decode; the session has the identifier, an empty
mapping, and `IsNew = true`. -/
theorem New_degraded_session_witness :
    (memStore.New (worldWithCookie "s1110sid5f1e2d3c4b5a69788796a5b4"
        [⟨"5f1e2d3c4b5a69788796a5b4", "garbled", 7⟩]) "sid").1
      = { ID := "5f1e2d3c4b5a69788796a5b4", Values := [], Options := storeOptions 3600,
          IsNew := true, name := "sid" } ∧
    (memStore.New (worldWithCookie "s1110sid5f1e2d3c4b5a69788796a5b4"
        [⟨"5f1e2d3c4b5a69788796a5b4", "garbled", 7⟩]) "sid").2.1 = none :=
  (New_degraded_session memStore (worldWithCookie "s1110sid5f1e2d3c4b5a69788796a5b4"
        [⟨"5f1e2d3c4b5a69788796a5b4", "garbled", 7⟩]) "sid"
    "s1110sid5f1e2d3c4b5a69788796a5b4" "5f1e2d3c4b5a69788796a5b4" rfl rfl (by decide)).2.1
    ⟨"5f1e2d3c4b5a69788796a5b4", "garbled", 7⟩ [] ErrDecode rfl rfl

end mongostore

/-! ## Save and Delete -/

namespace mongostore

open primitive

variable {σ τ : Type}

/-- What `delete` leaves untouched: the transport, and the trace apart from
calls that are not `SetToken`. -/
theorem delete_frame (m : MongoStore σ τ) (w : World σ τ) (session : sessions.Session) :
    (m.delete w session).2.rw = w.rw ∧
    ∃ calls, (m.delete w session).2.trace = w.trace ++ calls ∧
      calls.countP isSetToken = 0 ∧ calls.countP isEncode = 0 ∧
      ∀ id s, Call.UpsertId id s ∉ calls := by
  cases ho : ObjectIDFromHex session.ID <;>
    simp [MongoStore.delete, ho, World.log, isSetToken, isEncode]

/-- What `upsert` leaves untouched: the transport, and the trace apart from
calls that are not `SetToken`. -/
theorem upsert_frame (m : MongoStore σ τ) (w : World σ τ) (session : sessions.Session) :
    (m.upsert w session).2.rw = w.rw ∧
    ∃ calls, (m.upsert w session).2.trace = w.trace ++ calls ∧
      calls.countP isSetToken = 0 := by
  cases ho : ObjectIDFromHex session.ID with
  | none => simp [MongoStore.upsert, ho]
  | some o =>
    cases he : m.Codecs.EncodeMultiValues session.name session.Values <;>
    cases hl : session.Values.lookup (Val.str "modified") with
    | none => simp [MongoStore.upsert, ho, hl, he, World.log, isSetToken]
    | some v => cases v <;> simp [MongoStore.upsert, ho, hl, he, World.log, isSetToken]

end mongostore

namespace mongostore

open primitive

variable {σ τ : Type}

/-- When the payload does not encode, `upsert` fails and reaches neither the
collection nor the transport. -/
theorem upsert_encode_error (m : MongoStore σ τ) (w : World σ τ)
    (session : sessions.Session) (e : Error)
    (hEnc : m.Codecs.EncodeMultiValues session.name session.Values = .error e) :
    (m.upsert w session).1 ≠ none ∧
    (m.upsert w session).2.db = w.db ∧
    (m.upsert w session).2.rw = w.rw ∧
    (m.upsert w session).2.trace.filter isStoreCall = w.trace.filter isStoreCall ∧
    ((ObjectIDFromHex session.ID).isSome = true →
      (∀ v, session.Values.lookup (Val.str "modified") = some v → ∃ t, v = Val.time t) →
      (m.upsert w session).1 = some e) := by
  cases ho : ObjectIDFromHex session.ID with
  | none => simp [MongoStore.upsert, ho]
  | some o =>
    cases hl : session.Values.lookup (Val.str "modified") with
    | none => simp [MongoStore.upsert, ho, hl, hEnc, World.log, isStoreCall]
    | some v => cases v <;> simp [MongoStore.upsert, ho, hl, hEnc, World.log, isStoreCall]

/-- When `upsert` succeeds, it has handed one record with the session's ID to
`UpsertId`, which reported no error, and the collection is as that call left
it. -/
theorem upsert_ok_inv (m : MongoStore σ τ) (w : World σ τ) (session : sessions.Session)
    (h : (m.upsert w session).1 = none) :
    ∃ s : Session, s.Id = session.ID ∧
      (m.qc.UpsertId w.db session.ID s).2 = none ∧
      (m.upsert w session).2.db = (m.qc.UpsertId w.db session.ID s).1 ∧
      Call.UpsertId session.ID s ∈ (m.upsert w session).2.trace := by
  cases ho : ObjectIDFromHex session.ID with
  | none => simp [MongoStore.upsert, ho] at h
  | some o =>
    cases he : m.Codecs.EncodeMultiValues session.name session.Values with
    | error e =>
      have := (upsert_encode_error m w session e he).1
      exact absurd h this
    | ok encoded =>
      cases hl : session.Values.lookup (Val.str "modified") with
      | none =>
        simp only [MongoStore.upsert, ho, hl, he, World.log] at h ⊢
        exact ⟨⟨session.ID, encoded, w.now⟩, rfl, h, rfl, by simp⟩
      | some v =>
        cases v with
        | time t =>
          simp only [MongoStore.upsert, ho, hl, he, World.log] at h ⊢
          exact ⟨⟨session.ID, encoded, t⟩, rfl, h, rfl, by simp⟩
        | str s => simp [MongoStore.upsert, ho, hl, he] at h
        | num n => simp [MongoStore.upsert, ho, hl, he] at h

theorem afterID_frame (w : World σ τ) (session : sessions.Session) :
    (afterID w session).rw = w.rw ∧ (afterID w session).db = w.db ∧
    ∃ pre, (afterID w session).trace = w.trace ++ pre ∧ pre.countP isSetToken = 0 ∧
      pre.filter isStoreCall = [] := by
  unfold afterID
  split
  · exact ⟨rfl, rfl, [Call.NewObjectID], rfl, by simp [isSetToken], by simp [isStoreCall]⟩
  · exact ⟨rfl, rfl, [], by simp, by simp, by simp⟩

theorem Save_negative (m : MongoStore σ τ) (w : World σ τ) (session : sessions.Session)
    (hAge : session.Options.MaxAge < 0) :
    m.Save w session =
      match m.delete w session with
      | (some err, w1) => (some err, session, w1)
      | (none, w1) => (none, session, m.setToken w1 session.name "" session.Options) := by
  simp [MongoStore.Save, hAge]

theorem Save_upsert_error (m : MongoStore σ τ) (w w2 : World σ τ)
    (session : sessions.Session) (e : Error) (hAge : 0 ≤ session.Options.MaxAge)
    (hUp : m.upsert (afterID w session) (withID w session) = (some e, w2)) :
    m.Save w session = (some e, withID w session, w2) := by
  unfold afterID withID at hUp
  unfold MongoStore.Save withID
  rw [if_neg (not_lt.mpr hAge)]
  by_cases hID : session.ID = ""
  · simp only [hID, if_true] at hUp ⊢
    rw [hUp]
  · simp only [hID, if_false] at hUp ⊢
    rw [hUp]

theorem Save_token_error (m : MongoStore σ τ) (w w2 : World σ τ)
    (session : sessions.Session) (e : Error) (hAge : 0 ≤ session.Options.MaxAge)
    (hUp : m.upsert (afterID w session) (withID w session) = (none, w2))
    (hEnc : m.Codecs.EncodeMultiID session.name (withID w session).ID = .error e) :
    m.Save w session = (some e, withID w session,
      w2.log (Call.EncodeMultiID session.name (withID w session).ID)) := by
  unfold afterID withID at hUp
  unfold withID at hEnc
  unfold MongoStore.Save withID
  rw [if_neg (not_lt.mpr hAge)]
  by_cases hID : session.ID = ""
  · simp only [hID, if_true] at hUp hEnc ⊢
    rw [hUp]
    simp only [hEnc]
  · simp only [hID, if_false] at hUp hEnc ⊢
    rw [hUp]
    simp only [hEnc]

theorem Save_ok (m : MongoStore σ τ) (w w2 : World σ τ)
    (session : sessions.Session) (encoded : String) (hAge : 0 ≤ session.Options.MaxAge)
    (hUp : m.upsert (afterID w session) (withID w session) = (none, w2))
    (hEnc : m.Codecs.EncodeMultiID session.name (withID w session).ID = .ok encoded) :
    m.Save w session = (none, withID w session,
      m.setToken (w2.log (Call.EncodeMultiID session.name (withID w session).ID))
        session.name encoded session.Options) := by
  unfold afterID withID at hUp
  unfold withID at hEnc
  unfold MongoStore.Save withID
  rw [if_neg (not_lt.mpr hAge)]
  by_cases hID : session.ID = ""
  · simp only [hID, if_true] at hUp hEnc ⊢
    rw [hUp]
    simp only [hEnc]
  · simp only [hID, if_false] at hUp hEnc ⊢
    rw [hUp]
    simp only [hEnc]

/-- C7: whenever `Save` returns an error, the calls it made hold no
`SetToken` and the transport is as it was; whenever it returns nil, the calls
it made hold exactly one `SetToken`. -/
theorem Save_sets_token_iff_ok (m : MongoStore σ τ) (w : World σ τ)
    (session : sessions.Session) :
    ((m.Save w session).1 ≠ none →
      (m.Save w session).2.2.rw = w.rw ∧
      ∃ calls, (m.Save w session).2.2.trace = w.trace ++ calls ∧
        calls.countP isSetToken = 0) ∧
    ((m.Save w session).1 = none →
      ∃ calls, (m.Save w session).2.2.trace = w.trace ++ calls ∧
        calls.countP isSetToken = 1) := by
  by_cases hAge : session.Options.MaxAge < 0
  · rw [Save_negative m w session hAge]
    obtain ⟨hrw, calls, htr, hc, -, -⟩ := delete_frame m w session
    cases hd : m.delete w session with
    | mk r w1 =>
      rw [hd] at hrw htr
      simp only at hrw htr
      cases r with
      | some e =>
        simp only [ne_eq, reduceCtorEq, not_false_eq_true, forall_const, false_imp_iff,
          and_true]
        exact ⟨hrw, calls, htr, hc⟩
      | none =>
        simp only [ne_eq, not_true_eq_false, false_imp_iff, forall_const, true_and]
        exact ⟨calls ++ [Call.SetToken session.name "" session.Options],
          by simp [MongoStore.setToken, World.log, htr],
          by simp [List.countP_append, hc, isSetToken]⟩
  · have hAge0 : 0 ≤ session.Options.MaxAge := not_lt.mp hAge
    obtain ⟨hrw1, -, pre, htr1, hpre, -⟩ := afterID_frame w session
    obtain ⟨hrw, calls, htr, hc⟩ := upsert_frame m (afterID w session) (withID w session)
    cases hu : m.upsert (afterID w session) (withID w session) with
    | mk r w2 =>
      rw [hu] at hrw htr
      simp only at hrw htr
      cases r with
      | some e =>
        rw [Save_upsert_error m w w2 session e hAge0 hu]
        simp only [ne_eq, reduceCtorEq, not_false_eq_true, forall_const, false_imp_iff,
          and_true]
        exact ⟨hrw.trans hrw1, pre ++ calls,
          by rw [htr, htr1, List.append_assoc], by simp [List.countP_append, hpre, hc]⟩
      | none =>
        cases hE : m.Codecs.EncodeMultiID session.name (withID w session).ID with
        | error e =>
          rw [Save_token_error m w w2 session e hAge0 hu hE]
          simp only [ne_eq, reduceCtorEq, not_false_eq_true, forall_const, false_imp_iff,
            and_true, World.log]
          exact ⟨hrw.trans hrw1,
            pre ++ (calls ++ [Call.EncodeMultiID session.name (withID w session).ID]),
            by rw [htr, htr1]; simp,
            by simp [List.countP_append, hpre, hc, isSetToken]⟩
        | ok encoded =>
          rw [Save_ok m w w2 session encoded hAge0 hu hE]
          simp only [ne_eq, not_true_eq_false, false_imp_iff, forall_const, true_and,
            World.log, MongoStore.setToken]
          exact ⟨pre ++ (calls ++ [Call.EncodeMultiID session.name (withID w session).ID,
              Call.SetToken session.name encoded session.Options]),
            by rw [htr, htr1]; simp,
            by simp [List.countP_append, hpre, hc, isSetToken]⟩

end mongostore

namespace mongostore

open primitive

variable {σ τ : Type}

/-- C6 fails on the code: the session has a well-formed identifier and
max-age -1, the collection holds no record for it and `RemoveId` reports so;
`Save` returns that report as its error and makes no `SetToken` call, and the
public `Delete` returns the same error. -/
theorem Save_expiry_not_found_is_error :
    (ObjectIDFromHex "5f1e2d3c4b5a69788796a5b4").isSome = true ∧
    (sessionOf "5f1e2d3c4b5a69788796a5b4" [] (-1)).Options.MaxAge < 0 ∧
    memStore.qc.RemoveId emptyWorld.db "5f1e2d3c4b5a69788796a5b4"
      = ([], some ErrNoSuchDocuments) ∧
    (memStore.Save emptyWorld (sessionOf "5f1e2d3c4b5a69788796a5b4" [] (-1))).1
      = some ErrNoSuchDocuments ∧
    (memStore.Save emptyWorld (sessionOf "5f1e2d3c4b5a69788796a5b4" [] (-1))).2.2.trace
      = [Call.RemoveId "5f1e2d3c4b5a69788796a5b4"] ∧
    (memStore.Delete emptyWorld (sessionOf "5f1e2d3c4b5a69788796a5b4" [] (-1))).1
      = some ErrNoSuchDocuments :=
  ⟨by decide, by decide, rfl, by decide, by decide, by decide⟩

/-- C6 as amended: for a well-formed identifier and a negative max-age, `Save`
makes one `RemoveId` call for that identifier and no upsert.  When `RemoveId`
reports no error, `Save` then calls `SetToken` once, with the empty token and
the session's own options, and returns nil.  When `RemoveId` reports an error
(the report that no record exists among them), `Save` returns that error and
does not call `SetToken`.  The public `Delete` makes the same `RemoveId` call,
returns what it reports, and never calls `SetToken`. -/
theorem Save_negative_max_age (m : MongoStore σ τ) (w : World σ τ)
    (session : sessions.Session)
    (hid : session.ID.data.length = 24 ∧ ∀ c ∈ session.ID.data, isHexChar c = true)
    (hAge : session.Options.MaxAge < 0) :
    ((m.qc.RemoveId w.db session.ID).2 = none →
      m.Save w session = (none, session,
        { w with
          db := (m.qc.RemoveId w.db session.ID).1,
          rw := m.Token.SetToken w.rw session.name "" session.Options,
          trace := w.trace ++ [Call.RemoveId session.ID,
            Call.SetToken session.name "" session.Options] })) ∧
    (∀ e, (m.qc.RemoveId w.db session.ID).2 = some e →
      m.Save w session = (some e, session,
        { w with
          db := (m.qc.RemoveId w.db session.ID).1,
          trace := w.trace ++ [Call.RemoveId session.ID] })) ∧
    m.Delete w session = ((m.qc.RemoveId w.db session.ID).2,
        { w with
          db := (m.qc.RemoveId w.db session.ID).1,
          trace := w.trace ++ [Call.RemoveId session.ID] }) := by
  obtain ⟨o, ho⟩ := Option.isSome_iff_exists.mp ((ObjectIDFromHex_isSome_iff _).mpr hid)
  refine ⟨?_, ?_, ?_⟩
  · intro h
    simp [MongoStore.Save, hAge, MongoStore.delete, ho, h, MongoStore.setToken, World.log]
  · intro e h
    simp [MongoStore.Save, hAge, MongoStore.delete, ho, h, World.log]
  · cases h : (m.qc.RemoveId w.db session.ID).2 <;>
      simp [MongoStore.Delete, MongoStore.delete, ho, h, World.log]

/-- C6 as amended, at a concrete input: the collection holds the record, and
saving with max-age -1 removes it and writes the empty token. -/
theorem Save_negative_max_age_witness :
    memStore.Save
        (worldWithCookie "s1110sid5f1e2d3c4b5a69788796a5b4"
          [⟨"5f1e2d3c4b5a69788796a5b4", "s1110sid0", 7⟩])
        (sessionOf "5f1e2d3c4b5a69788796a5b4" [] (-1))
      = (none, sessionOf "5f1e2d3c4b5a69788796a5b4" [] (-1),
          { db := [],
            rw := [("sid", ""), ("sid", "s1110sid5f1e2d3c4b5a69788796a5b4")],
            now := 1000, oid := emptyWorld.oid,
            trace := [Call.RemoveId "5f1e2d3c4b5a69788796a5b4",
              Call.SetToken "sid" "" (storeOptions (-1))] }) :=
  (Save_negative_max_age memStore
    (worldWithCookie "s1110sid5f1e2d3c4b5a69788796a5b4"
      [⟨"5f1e2d3c4b5a69788796a5b4", "s1110sid0", 7⟩])
    (sessionOf "5f1e2d3c4b5a69788796a5b4" [] (-1)) (by decide) (by decide)).1 rfl

/-- C8 fails on the code: max-age is 3600 and encoding the identifier into a
token fails; `Save` returns that error, yet the collection, empty before the
call, now holds the record. -/
theorem Save_token_encode_failure_after_upsert :
    0 ≤ (sessionOf "" [(Val.str "user", Val.str "alice")] 3600).Options.MaxAge ∧
    tokenlessStore.Codecs.EncodeMultiID "sid" "5f1e2d3c4b5a69788796a5b4"
      = .error ErrEncode ∧
    emptyWorld.db = [] ∧
    (tokenlessStore.Save emptyWorld
      (sessionOf "" [(Val.str "user", Val.str "alice")] 3600)).1 = some ErrEncode ∧
    (tokenlessStore.Save emptyWorld
      (sessionOf "" [(Val.str "user", Val.str "alice")] 3600)).2.2.db
      = [⟨"5f1e2d3c4b5a69788796a5b4", "s1110sid10s11110users111110alice", 1000⟩] ∧
    (tokenlessStore.Save emptyWorld
      (sessionOf "" [(Val.str "user", Val.str "alice")] 3600)).2.2.db ≠ emptyWorld.db :=
  ⟨by decide, rfl, rfl, by decide, by decide, by decide⟩

/-- C8 as amended: for a non-negative max-age, when encoding the value mapping
fails, `Save` returns an error (that one, once the identifier and the
"modified" value have passed their checks), and the collection and the
transport are as before, with no call to the collection.  When the upsert has
succeeded and encoding the identifier into a token fails with `e`, `Save`
returns `e` and leaves the transport as it was, but the record has been handed
to `UpsertId` and the collection is as that call left it. -/
theorem Save_encode_failure (m : MongoStore σ τ) (w : World σ τ)
    (session : sessions.Session) (hAge : 0 ≤ session.Options.MaxAge) :
    (∀ e, m.Codecs.EncodeMultiValues session.name session.Values = .error e →
      (m.Save w session).1 ≠ none ∧
      (m.Save w session).2.2.db = w.db ∧
      (m.Save w session).2.2.rw = w.rw ∧
      (m.Save w session).2.2.trace.filter isStoreCall = w.trace.filter isStoreCall ∧
      ((session.ID = "" ∨
          (session.ID.data.length = 24 ∧ ∀ c ∈ session.ID.data, isHexChar c = true)) →
        (∀ v, session.Values.lookup (Val.str "modified") = some v → ∃ t, v = Val.time t) →
        (m.Save w session).1 = some e)) ∧
    (∀ e, (m.upsert (afterID w session) (withID w session)).1 = none →
      m.Codecs.EncodeMultiID session.name (withID w session).ID = .error e →
      (m.Save w session).1 = some e ∧
      (m.Save w session).2.2.rw = w.rw ∧
      ∃ s : Session, s.Id = (withID w session).ID ∧
        (m.qc.UpsertId w.db (withID w session).ID s).2 = none ∧
        (m.Save w session).2.2.db = (m.qc.UpsertId w.db (withID w session).ID s).1 ∧
        Call.UpsertId (withID w session).ID s ∈ (m.Save w session).2.2.trace) := by
  have hname : (withID w session).name = session.name := by
    unfold withID; split <;> rfl
  have hvals : (withID w session).Values = session.Values := by
    unfold withID; split <;> rfl
  obtain ⟨hrw1, hdb1, pre, htr1, -, hpre⟩ := afterID_frame w session
  constructor
  · intro e hEnc
    have hEnc1 : m.Codecs.EncodeMultiValues (withID w session).name (withID w session).Values
        = .error e := by rw [hname, hvals]; exact hEnc
    obtain ⟨h1, h2, h3, h4, h5⟩ :=
      upsert_encode_error m (afterID w session) (withID w session) e hEnc1
    cases hu : m.upsert (afterID w session) (withID w session) with
    | mk r w2 =>
      rw [hu] at h1 h2 h3 h4 h5
      simp only at h1 h2 h3 h4 h5
      cases r with
      | none => exact absurd rfl h1
      | some e1 =>
        rw [Save_upsert_error m w w2 session e1 hAge hu]
        refine ⟨by simp, h2.trans hdb1, h3.trans hrw1, ?_, ?_⟩
        · simp only [h4, htr1, List.filter_append, hpre, List.append_nil]
        · intro hID hMod
          have hv : (ObjectIDFromHex (withID w session).ID).isSome = true := by
            unfold withID
            split
            · exact ObjectIDFromHex_Hex _
            · rename_i hne
              rcases hID with h | h
              · exact absurd h hne
              · exact (ObjectIDFromHex_isSome_iff _).mpr h
          exact h5 hv (by rw [hvals]; exact hMod)
  · intro e hUp hEnc
    obtain ⟨s, hs1, hs2, hs3, hs4⟩ := upsert_ok_inv m (afterID w session) (withID w session) hUp
    obtain ⟨hrw, -, -, -⟩ := upsert_frame m (afterID w session) (withID w session)
    cases hu : m.upsert (afterID w session) (withID w session) with
    | mk r w2 =>
      rw [hu] at hUp hs3 hs4 hrw
      simp only at hUp hs3 hs4 hrw
      subst hUp
      rw [Save_token_error m w w2 session e hAge hu hEnc]
      refine ⟨rfl, hrw.trans hrw1, s, hs1, by rw [← hdb1]; exact hs2,
        by rw [← hdb1]; exact hs3, ?_⟩
      simp only [World.log, List.mem_append]
      exact Or.inl hs4

/-- C8 as amended, at a concrete input: a codec that cannot encode anything
makes `Save` fail with the collection still empty. -/
theorem Save_encode_failure_witness :
    (brokenStore.Save emptyWorld
      (sessionOf "" [(Val.str "user", Val.str "alice")] 3600)).1 = some ErrEncode ∧
    (brokenStore.Save emptyWorld
      (sessionOf "" [(Val.str "user", Val.str "alice")] 3600)).2.2.db = [] :=
  have h := (Save_encode_failure brokenStore emptyWorld
    (sessionOf "" [(Val.str "user", Val.str "alice")] 3600) (by decide)).1 ErrEncode rfl
  have hl : List.lookup (Val.str "modified")
      (sessionOf "" [(Val.str "user", Val.str "alice")] 3600).Values = none := by decide
  ⟨h.2.2.2.2 (Or.inl rfl) (fun v hv => by rw [hl] at hv; cases hv), h.2.1⟩

end mongostore

/-! ## The round trip: Save, then New -/

namespace mongostore

open primitive

variable {σ τ : Type}

theorem getNat_putNat (n : Nat) (r : List Char) : getNat (putNat n ++ r) = some (n, r) := by
  induction n with
  | zero => simp [putNat, getNat]
  | succ k ih =>
    have h : putNat (k + 1) ++ r = '1' :: (putNat k ++ r) := by
      simp [putNat, List.replicate_succ]
    rw [h, getNat]
    simp [ih]

theorem getVal_putVal (v : Val) (r : List Char) : getVal (putVal v ++ r) = some (v, r) := by
  cases v with
  | str s =>
    simp only [putVal, List.cons_append, List.append_assoc, getVal, getNat_putNat]
    simp
  | num n =>
    cases n with
    | ofNat k =>
      simp only [putVal, List.cons_append, getVal, getNat_putNat]
      simp
    | negSucc k =>
      simp only [putVal, List.cons_append, getVal, getNat_putNat]
      simp
  | time t =>
    simp only [putVal, List.cons_append, getVal, getNat_putNat]
    simp

theorem getEntries_putEntries (values : Values) (r : List Char) :
    getEntries values.length (putEntries values ++ r) = some (values, r) := by
  induction values with
  | nil => simp [putEntries, getEntries]
  | cons kv rest ih =>
    obtain ⟨k, v⟩ := kv
    simp only [putEntries, List.length_cons, getEntries, List.append_assoc, getVal_putVal, ih]

/-- The identifier half of `plainCodec` decodes what it encoded. -/
theorem plainCodec_ID_round_trip (name x : String) :
    ∃ t, plainCodec.EncodeMultiID name x = .ok t ∧
      plainCodec.DecodeMultiID name t "" = (x, none) := by
  refine ⟨⟨putVal (.str name) ++ x.data⟩, rfl, ?_⟩
  simp only [plainCodec, getVal_putVal]
  simp

/-- The mapping half of `plainCodec` decodes what it encoded. -/
theorem plainCodec_Values_round_trip (name : String) (x : Values) :
    ∃ t, plainCodec.EncodeMultiValues name x = .ok t ∧
      plainCodec.DecodeMultiValues name t [] = (x, none) := by
  refine ⟨⟨putVal (.str name) ++ (putNat x.length ++ putEntries x)⟩, rfl, ?_⟩
  have h := getEntries_putEntries x []
  rw [List.append_nil] at h
  simp only [plainCodec, getVal_putVal, getNat_putNat, h]
  simp

/-- The cookie transport returns the token last set under a name. -/
theorem CookieToken_get_set (jar : List (String × String)) (name token : String)
    (options : sessions.Options) :
    CookieToken.GetToken (CookieToken.SetToken jar name token options) name = .ok token := by
  simp [CookieToken, List.lookup]

theorem memClient_UpsertId_new (db : List Session) (id : String) (s : Session)
    (h : ∀ r ∈ db, r.Id ≠ id) : memClient.UpsertId db id s = (db ++ [s], none) := by
  have hany : db.any (fun r => decide (r.Id = id)) = false := by
    simp only [List.any_eq_false, decide_eq_true_eq]
    exact h
  simp only [memClient, hany, Bool.false_eq_true, if_false]

theorem memClient_Find_new (db : List Session) (id : String) (s : Session)
    (h : ∀ r ∈ db, r.Id ≠ id) (hs : s.Id = id) :
    memClient.Find (db ++ [s]) id = .ok s := by
  have hnone : db.find? (fun r => decide (r.Id = id)) = none := by
    simp only [List.find?_eq_none, decide_eq_true_eq]
    exact h
  simp [memClient, List.find?_append, hnone, hs]

theorem memClient_count_new (db : List Session) (id : String) (s : Session)
    (h : ∀ r ∈ db, r.Id ≠ id) (hs : s.Id = id) :
    ((db ++ [s]).filter (fun r => decide (r.Id = id))).length = 1 := by
  have hnil : db.filter (fun r => decide (r.Id = id)) = [] := by
    simp only [List.filter_eq_nil_iff, decide_eq_true_eq]
    exact h
  simp [List.filter_append, hnil, hs]

/-- C1: take a codec that decodes what it encoded, for identifiers and for
mappings, a transport whose `GetToken` returns the token last passed to
`SetToken`, and the in-memory collection, holding no record under the
identifier about to be issued.  For a session with an empty ID, a non-negative
max-age and a mapping without a "modified" key, `Save` returns nil and gives
the session the new identifier, the collection then holds exactly one record
under it, and `New` for the same name returns a nil error and a session with
`IsNew = false`, the same ID and the same mapping. -/
theorem Save_then_New_round_trip (m : MongoStore (List Session) τ)
    (w : World (List Session) τ) (session : sessions.Session)
    (hqc : m.qc = memClient)
    (hID : ∀ name x, ∃ t, m.Codecs.EncodeMultiID name x = .ok t ∧
      m.Codecs.DecodeMultiID name t "" = (x, none))
    (hVal : ∀ name x, ∃ t, m.Codecs.EncodeMultiValues name x = .ok t ∧
      m.Codecs.DecodeMultiValues name t [] = (x, none))
    (hTok : ∀ rw name t o, m.Token.GetToken (m.Token.SetToken rw name t o) name = .ok t)
    (hDb : ∀ r ∈ w.db, r.Id ≠ Hex w.oid)
    (hEmpty : session.ID = "") (hAge : 0 ≤ session.Options.MaxAge)
    (hMod : session.Values.lookup (Val.str "modified") = none) :
    (m.Save w session).1 = none ∧
    (m.Save w session).2.1.ID = Hex w.oid ∧
    (m.Save w session).2.1.ID ≠ "" ∧
    ((m.Save w session).2.2.db.filter
      (fun r => decide (r.Id = (m.Save w session).2.1.ID))).length = 1 ∧
    (m.New (m.Save w session).2.2 session.name).2.1 = none ∧
    (m.New (m.Save w session).2.2 session.name).1.IsNew = false ∧
    (m.New (m.Save w session).2.2 session.name).1.ID = (m.Save w session).2.1.ID ∧
    (m.New (m.Save w session).2.2 session.name).1.Values = session.Values := by
  obtain ⟨p, hp, hpd⟩ := hVal session.name session.Values
  obtain ⟨t, ht, htd⟩ := hID session.name (Hex w.oid)
  obtain ⟨o, ho⟩ := Option.isSome_iff_exists.mp (ObjectIDFromHex_Hex w.oid)
  have hwid : withID w session = { session with ID := Hex w.oid } := by
    simp [withID, hEmpty]
  have haid : afterID w session = w.log Call.NewObjectID := by
    simp [afterID, hEmpty]
  have hUp : m.upsert (afterID w session) (withID w session) =
      (none, { w with
        db := w.db ++ [⟨Hex w.oid, p, w.now⟩],
        trace := w.trace ++ [Call.NewObjectID, Call.Now,
          Call.EncodeMultiValues session.name session.Values,
          Call.UpsertId (Hex w.oid) ⟨Hex w.oid, p, w.now⟩] }) := by
    rw [hwid, haid]
    simp [MongoStore.upsert, ho, hMod, hp, World.log, hqc,
      memClient_UpsertId_new w.db (Hex w.oid) ⟨Hex w.oid, p, w.now⟩ hDb]
  have hSave := Save_ok m w _ session t hAge hUp (by rw [hwid]; exact ht)
  rw [hSave, hwid]
  refine ⟨rfl, rfl, Hex_ne_empty _, ?_, ?_⟩
  · simpa [MongoStore.setToken, World.log] using
      memClient_count_new w.db (Hex w.oid) ⟨Hex w.oid, p, w.now⟩ hDb rfl
  · have hN := New_id_decoded m
      (m.setToken (World.log { w with
          db := w.db ++ [⟨Hex w.oid, p, w.now⟩],
          trace := w.trace ++ [Call.NewObjectID, Call.Now,
            Call.EncodeMultiValues session.name session.Values,
            Call.UpsertId (Hex w.oid) ⟨Hex w.oid, p, w.now⟩] }
          (Call.EncodeMultiID session.name ({ session with ID := Hex w.oid } : sessions.Session).ID))
        session.name t session.Options)
      session.name t (Hex w.oid) (by simp [MongoStore.setToken, hTok]) htd
    have hL := load_payload m
      ((World.log (m.setToken (World.log { w with
          db := w.db ++ [⟨Hex w.oid, p, w.now⟩],
          trace := w.trace ++ [Call.NewObjectID, Call.Now,
            Call.EncodeMultiValues session.name session.Values,
            Call.UpsertId (Hex w.oid) ⟨Hex w.oid, p, w.now⟩] }
          (Call.EncodeMultiID session.name ({ session with ID := Hex w.oid } : sessions.Session).ID))
        session.name t session.Options) (Call.GetToken session.name)).log
          (Call.DecodeMulti session.name t))
      { freshSession m session.name with ID := Hex w.oid }
      ⟨Hex w.oid, p, w.now⟩ session.Values none (ObjectIDFromHex_Hex w.oid)
      (by
        simp only [MongoStore.setToken, World.log, hqc]
        exact memClient_Find_new w.db (Hex w.oid) ⟨Hex w.oid, p, w.now⟩ hDb rfl)
      (by simpa [freshSession] using hpd)
    rw [hN, hL]
    simp

/-- C1 at a concrete input: the end-to-end scenario of the in-memory store,
with the mapping `user ↦ alice` and an empty collection. -/
theorem Save_then_New_round_trip_witness :
    (memStore.Save emptyWorld (sessionOf "" [(Val.str "user", Val.str "alice")] 3600)).1
      = none ∧
    (memStore.Save emptyWorld
      (sessionOf "" [(Val.str "user", Val.str "alice")] 3600)).2.1.ID
      = "5f1e2d3c4b5a69788796a5b4" ∧
    (memStore.New (memStore.Save emptyWorld
      (sessionOf "" [(Val.str "user", Val.str "alice")] 3600)).2.2 "sid").1.IsNew = false ∧
    (memStore.New (memStore.Save emptyWorld
      (sessionOf "" [(Val.str "user", Val.str "alice")] 3600)).2.2 "sid").1.Values
      = [(Val.str "user", Val.str "alice")] :=
  have h := Save_then_New_round_trip memStore emptyWorld
    (sessionOf "" [(Val.str "user", Val.str "alice")] 3600) rfl
    plainCodec_ID_round_trip plainCodec_Values_round_trip CookieToken_get_set
    (by decide) rfl (by decide) (by decide)
  ⟨h.1, h.2.1.trans (by decide), h.2.2.2.2.2.1, h.2.2.2.2.2.2.2⟩

end mongostore
